/-
  Verification of the mediarepo storage-and-tagging engine.

  Shallow embedding of:
  - the content-addressed byte store used by `Repo::add_file`
    (mediarepo-daemon/mediarepo-model/src/repo.rs),
  - the tag/namespace catalog (`Repo::add_all_tags`, `Repo::add_or_find_tag`),
  - the boolean tag query evaluator (`Repo::find_files_by_tags`),
  - the thumbnail subsystem (`Repo::create_file_thumbnail`,
    `Repo::create_thumbnails_for_file`, and the tolerance window of
    `thumb_scheme` in mediarepo-api/src/tauri_plugin/custom_schemes.rs),
  - the buffer cache and connection state
    (mediarepo-api/src/tauri_plugin/state.rs, `once_scheme`).

  Database side effects are modelled by explicit state passing; fallible
  operations return `Except`.  Functions whose bodies are not part of the
  sources at hand (the sea-orm entity helpers, `parse_namespace_and_tag`,
  `BufferState::get_entry`/`add_entry`) are modelled from the spec and are
  marked with a doc comment starting with `Modelled from the spec:`.
-/
import Mathlib

namespace Mediarepo

/-! ## Storage engine (Repo::add_file / Storage::store_entry) -/

/-- Content bytes are modelled as lists of naturals (byte values). -/
abbrev Bytes := List ℕ

/-- State of one storage location: descriptor rows `(id, content hash)`;
physical files `(hash-derived path, bytes)` keyed directly by the hash;
and the next fresh descriptor id. -/
structure StoreState where
  descriptors : List (ℕ × ℕ)
  physFiles : List (ℕ × Bytes)
  nextId : ℕ
  deriving DecidableEq

/-- Modelled from the spec: `Storage::store_entry` (mediarepo-model's
`storage.rs` is not among the sources).  Compute the content hash; look up
an existing descriptor with that hash; if found, return it without writing
the bytes again; if not found, persist the bytes under the hash-derived
path and insert a new descriptor row.  The hash function is a parameter. -/
def store_entry (hash : Bytes → ℕ) (s : StoreState) (content : Bytes) :
    ℕ × StoreState :=
  let h := hash content
  match s.descriptors.find? (fun d => decide (d.2 = h)) with
  | some d => (d.1, s)
  | none =>
    (s.nextId,
      { descriptors := (s.nextId, h) :: s.descriptors
        physFiles := (h, content) :: s.physFiles
        nextId := s.nextId + 1 })

/-- Iterate `store_entry` with the same content `n` times: the list of
returned descriptor ids, and the final state. -/
def store_iter (hash : Bytes → ℕ) (s : StoreState) (content : Bytes) :
    ℕ → List ℕ × StoreState
  | 0 => ([], s)
  | n + 1 =>
    let r1 := store_entry hash s content
    let rn := store_iter hash r1.2 content n
    (r1.1 :: rn.1, rn.2)

/-- Number of descriptor rows recorded for hash `h`. -/
def countDescriptors (s : StoreState) (h : ℕ) : ℕ :=
  (s.descriptors.filter (fun d => decide (d.2 = h))).length

/-- Number of physical copies stored for hash `h`. -/
def countPhysical (s : StoreState) (h : ℕ) : ℕ :=
  (s.physFiles.filter (fun f => decide (f.1 = h))).length

lemma find?_eq_none_of_count_zero (s : StoreState) (h : ℕ)
    (hc : countDescriptors s h = 0) :
    s.descriptors.find? (fun d => decide (d.2 = h)) = none := by
  rw [List.find?_eq_none]
  intro x hx
  simp only [decide_eq_true_eq]
  intro hxh
  have : x ∈ s.descriptors.filter (fun d => decide (d.2 = h)) := by
    rw [List.mem_filter]
    exact ⟨hx, by simpa using hxh⟩
  rw [countDescriptors, List.length_eq_zero] at hc
  simp [hc] at this

/-- After a first store of fresh content, every further store of the same
content returns the same descriptor and leaves the state unchanged. -/
lemma store_entry_stable (hash : Bytes → ℕ) (s : StoreState) (c : Bytes)
    (hd : countDescriptors s (hash c) = 0) :
    store_entry hash ((store_entry hash s c).2) c =
      ((store_entry hash s c).1, (store_entry hash s c).2) := by
  have hnone := find?_eq_none_of_count_zero s (hash c) hd
  simp only [store_entry, hnone]
  simp [List.find?_cons]

/-- A state that `store_entry` maps to itself absorbs any number of
further stores of the same content. -/
lemma store_iter_stable (hash : Bytes → ℕ) (s1 : StoreState) (c : Bytes)
    (i1 : ℕ) (hstable : store_entry hash s1 c = (i1, s1)) (m : ℕ) :
    store_iter hash s1 c m = (List.replicate m i1, s1) := by
  induction m with
  | zero => simp [store_iter]
  | succ k ih => simp [store_iter, hstable, ih, List.replicate_succ]

/-- C1: storing the same byte content `n ≥ 1` times at a fixed storage
location returns the same descriptor id every time, creates exactly one
descriptor row, and writes exactly one physical copy of the bytes
(content not yet present in the store). -/
theorem store_entry_dedup_idempotent (hash : Bytes → ℕ) (s : StoreState)
    (c : Bytes) (n : ℕ)
    (hd : countDescriptors s (hash c) = 0)
    (hp : countPhysical s (hash c) = 0)
    (hn : 1 ≤ n) :
    (store_iter hash s c n).1 = List.replicate n (store_entry hash s c).1 ∧
    countDescriptors (store_iter hash s c n).2 (hash c) = 1 ∧
    countPhysical (store_iter hash s c n).2 (hash c) = 1 ∧
    (store_iter hash s c n).2.descriptors.length = s.descriptors.length + 1 := by
  obtain ⟨k, rfl⟩ : ∃ k, n = k + 1 := ⟨n - 1, by omega⟩
  have hnone := find?_eq_none_of_count_zero s (hash c) hd
  have hstable := store_entry_stable hash s c hd
  have hiter := store_iter_stable hash ((store_entry hash s c).2) c
    ((store_entry hash s c).1) hstable k
  have hunfold :
      store_iter hash s c (k + 1) =
        (List.replicate (k + 1) (store_entry hash s c).1,
          (store_entry hash s c).2) := by
    simp [store_iter, hiter, List.replicate_succ]
  rw [hunfold]
  refine ⟨rfl, ?_, ?_, ?_⟩
  · simp only [store_entry, hnone, countDescriptors, List.filter_cons]
    simp only [countDescriptors] at hd
    simp [hd]
  · simp only [store_entry, hnone, countPhysical, List.filter_cons]
    simp only [countPhysical] at hp
    simp [hp]
  · simp [store_entry, hnone]

/-- A concrete injective-enough content hash used for evaluation. -/
def demoHash (bs : Bytes) : ℕ := bs.foldl (fun a b => a * 256 + b + 1) 1

/-- Concrete check of `store_entry_dedup_idempotent`: a fresh store, the
content `[1, 2, 3]`, three calls. -/
theorem store_entry_dedup_idempotent_check :
    countDescriptors ⟨[], [], 0⟩ (demoHash [1, 2, 3]) = 0 ∧
    countPhysical ⟨[], [], 0⟩ (demoHash [1, 2, 3]) = 0 ∧
    1 ≤ 3 ∧
    ((store_iter demoHash ⟨[], [], 0⟩ [1, 2, 3] 3).1 =
        List.replicate 3 (store_entry demoHash ⟨[], [], 0⟩ [1, 2, 3]).1 ∧
      countDescriptors (store_iter demoHash ⟨[], [], 0⟩ [1, 2, 3] 3).2
          (demoHash [1, 2, 3]) = 1 ∧
      countPhysical (store_iter demoHash ⟨[], [], 0⟩ [1, 2, 3] 3).2
          (demoHash [1, 2, 3]) = 1 ∧
      (store_iter demoHash ⟨[], [], 0⟩ [1, 2, 3] 3).2.descriptors.length =
        ([] : List (ℕ × ℕ)).length + 1) :=
  ⟨by decide, by decide, by decide,
    store_entry_dedup_idempotent demoHash ⟨[], [], 0⟩ [1, 2, 3] 3
      (by decide) (by decide) (by decide)⟩

/-! ## Connection state (ApiState::set_api, tauri_plugin/state.rs)

`ApiState` guards `Option<ApiClient>` behind an `RwLock`.  `set_api` takes
the write lock, swaps the new client in with `mem::replace`, and calls
`exit()` on the replaced client before releasing the lock; readers
(`ApiState::api`) take the read lock, so the whole body of `set_api` is one
atomic step from any caller's point of view.  We model that critical
section as a single transition on an explicit state that additionally
records, as history, every client ever connected and every client exited. -/

/-- Connection state: the active client handle (if any), plus ghost history
fields: all clients ever made active, and all clients whose `exit()` has
been called. -/
structure ConnState where
  active : Option ℕ
  everConnected : List ℕ
  exited : List ℕ
  deriving DecidableEq

/-- Embedding of `ApiState::set_api`: one atomic step that installs the new
client and exits the replaced one inside the same critical section. -/
def set_api (s : ConnState) (c : ℕ) : ConnState :=
  { active := some c
    everConnected := c :: s.everConnected
    exited :=
      match s.active with
      | some old => old :: s.exited
      | none => s.exited }

/-- At most one live downstream connection: every client ever connected and
not yet exited is the currently active one. -/
def AtMostOneLive (s : ConnState) : Prop :=
  ∀ c ∈ s.everConnected, c ∉ s.exited → s.active = some c

instance (s : ConnState) : Decidable (AtMostOneLive s) := by
  unfold AtMostOneLive; infer_instance

/-- C3: on reconnect the previous active handle is closed within the same
atomic step that makes the new handle visible, so in every state a caller
can observe after `set_api` the old handle is already exited, the new
handle is the active one, and at most one downstream connection is live. -/
theorem set_api_swap_drain (s : ConnState) (c : ℕ)
    (h : AtMostOneLive s) :
    (∀ old, s.active = some old → old ∈ (set_api s c).exited) ∧
    (set_api s c).active = some c ∧
    AtMostOneLive (set_api s c) := by
  refine ⟨?_, rfl, ?_⟩
  · intro old hold
    simp [set_api, hold]
  · intro d hd hnd
    simp only [set_api, List.mem_cons] at hd
    rcases hd with rfl | hd
    · rfl
    · exfalso
      cases hact : s.active with
      | none =>
        have := h d hd (fun hmem => hnd (by simp [set_api, hact, hmem]))
        rw [hact] at this
        exact Option.noConfusion this
      | some old =>
        have hdne : d ∉ s.exited := fun hmem => hnd (by simp [set_api, hact, hmem])
        have := h d hd hdne
        rw [hact] at this
        have hdo : d = old := by injection this with h2; exact h2.symm
        exact hnd (by simp [set_api, hact, hdo])

/-- Concrete check of `set_api_swap_drain`: reconnecting while client `1`
is active. -/
theorem set_api_swap_drain_check :
    AtMostOneLive ⟨some 1, [1], []⟩ ∧
    ((∀ old, (some 1 : Option ℕ) = some old →
        old ∈ (set_api ⟨some 1, [1], []⟩ 2).exited) ∧
      (set_api ⟨some 1, [1], []⟩ 2).active = some 2 ∧
      AtMostOneLive (set_api ⟨some 1, [1], []⟩ 2)) :=
  ⟨by decide, set_api_swap_drain ⟨some 1, [1], []⟩ 2 (by decide)⟩

/-! ## Buffer cache (OnceBuffer / BufferState, tauri_plugin/state.rs) -/

/-- The buffer cache entry exactly as declared in `state.rs`: a mime type
and the byte payload.  (The struct has no mode field and no creation
time.) -/
structure OnceBuffer where
  mime : String
  buf : Bytes
  deriving DecidableEq

/-- The buffer cache map: keys to entries (entries are keyed uniquely, as
in the `HashMap<String, OnceBuffer>` of `BufferState`). -/
abbrev BufferSt := List (String × OnceBuffer)

/-- Modelled from the spec: `BufferState::add_entry` (called by
`content_scheme`/`thumb_scheme`; its body is not among the sources).
Inserts or overwrites the entry under `key`. -/
def add_entry (key : String) (mime : String) (buf : Bytes) (s : BufferSt) :
    BufferSt :=
  (key, ⟨mime, buf⟩) :: s.filter (fun e => decide (e.1 ≠ key))

/-- Modelled from the spec: `BufferState::get_entry` (its body is not among
the sources).  A successful `get` is read-once: it returns the entry and
atomically removes it from the map. -/
def get_entry (key : String) (s : BufferSt) : Option OnceBuffer × BufferSt :=
  match s.find? (fun e => decide (e.1 = key)) with
  | some e => (some e.2, s.filter (fun e => decide (e.1 ≠ key)))
  | none => (none, s)

/-- C6 counterexample: the entry inserted by the cache's only insertion
operation (which takes no mode and records no creation time) is the record
`⟨mime, bytes⟩` and is gone after one successful `get` — no entry is
retrievable across multiple `get`s, with no sweep or TTL involved. -/
theorem once_buffer_consumed_on_first_get :
    get_entry ("k1") (add_entry ("k1") "text/plain" [104, 105] []) =
      (some ⟨"text/plain", [104, 105]⟩, []) ∧
    get_entry ("k1") [] = (none, []) := by
  constructor <;> rfl

/-- C6 (amended): every buffer cache entry carries exactly a mime type and
a byte buffer, and every entry is one-shot — after a successful `get` of a
key, a second `get` of the same key returns absent, for every cache state. -/
theorem get_entry_one_shot (key : String) (s : BufferSt) (e : OnceBuffer)
    (s1 : BufferSt) (h : get_entry key s = (some e, s1)) :
    get_entry key s1 = (none, s1) := by
  unfold get_entry at h
  cases hf : s.find? (fun e => decide (e.1 = key)) with
  | none => rw [hf] at h; exact absurd (congrArg Prod.fst h) (by simp)
  | some x =>
    rw [hf] at h
    have hs1 : s1 = s.filter (fun e => decide (e.1 ≠ key)) :=
      (congrArg Prod.snd h).symm
    have hnone : s1.find? (fun e => decide (e.1 = key)) = none := by
      rw [List.find?_eq_none]
      intro y hy
      rw [hs1, List.mem_filter] at hy
      simpa using hy.2
    simp [get_entry, hnone]

/-- Concrete check of `get_entry_one_shot`. -/
theorem get_entry_one_shot_check :
    get_entry ("k") [("k", ⟨"text/plain", [1]⟩)] =
      (some ⟨"text/plain", [1]⟩, []) ∧
    get_entry ("k") ([] : BufferSt) = (none, []) :=
  ⟨by rfl,
    get_entry_one_shot ("k") [("k", ⟨"text/plain", [1]⟩)]
      ⟨"text/plain", [1]⟩ [] (by rfl)⟩

/-! ## The `once` URI scheme (once_scheme, custom_schemes.rs) -/

/-- An HTTP-like response as built by `ResponseBuilder`: status, mime type,
body bytes. -/
structure SchemeResponse where
  status : ℕ
  mime : String
  body : Bytes
  deriving DecidableEq

/-- Bytes of a string, as `"...".as_bytes().to_vec()`. -/
def strBytes (s : String) : Bytes := s.data.map Char.toNat

/-- One step of Rust's `trim_start_matches` with the scheme marker
`once://`: strip the marker if the character list starts with it. -/
def stripOnceMarker (cs : List Char) : Option (List Char) :=
  if cs.take 7 = "once://".data then some (cs.drop 7) else none

/-- Repeatedly strip the scheme marker (Rust's `trim_start_matches` removes
every successive occurrence); fuelled by the list length. -/
def stripOnceMarkerRep : ℕ → List Char → List Char
  | 0, cs => cs
  | n + 1, cs =>
    match stripOnceMarker cs with
    | some rest => stripOnceMarkerRep n rest
    | none => cs

/-- The key resolution `request.uri().trim_start_matches("once://")`. -/
def trimOnceUri (uri : String) : String :=
  String.mk (stripOnceMarkerRep uri.data.length uri.data)

/-- Embedding of `once_scheme` (custom_schemes.rs): resolve the resource
key from the URI, do a one-shot buffer `get`; on a hit answer 200 with the
buffered mime and bytes, on a miss answer 404 `text/plain`
"Resource not found".  Both branches are the `Ok` constructor of the
handler's `Result` type. -/
def once_scheme (s : BufferSt) (uri : String) :
    Except String SchemeResponse × BufferSt :=
  let key := trimOnceUri uri
  match get_entry key s with
  | (some b, s1) => (.ok ⟨200, b.mime, b.buf⟩, s1)
  | (none, s1) => (.ok ⟨404, "text/plain", strBytes ("Resource not found")⟩, s1)

/-- C9: a content fetch through the one-shot buffer boundary whose key is
absent from the cache yields a plain-text 404 response — a normal `Ok`
return, never an error that aborts the caller — and leaves the cache
unchanged. -/
theorem once_scheme_unknown_key_404 (s : BufferSt) (uri : String)
    (h : ∀ e ∈ s, e.1 ≠ trimOnceUri uri) :
    once_scheme s uri =
      (.ok ⟨404, "text/plain", strBytes ("Resource not found")⟩, s) := by
  have hnone : s.find? (fun e => decide (e.1 = trimOnceUri uri)) = none := by
    rw [List.find?_eq_none]
    intro e he
    simpa using h e he
  simp [once_scheme, get_entry, hnone]

/-- Concrete check of `once_scheme_unknown_key_404`: a cache holding only
key `"a"`, a request for `once://b`. -/
theorem once_scheme_unknown_key_404_check :
    (∀ e ∈ ([("a", OnceBuffer.mk ("text/plain") [1])] : BufferSt),
        e.1 ≠ trimOnceUri ("once://b")) ∧
    once_scheme [("a", OnceBuffer.mk ("text/plain") [1])] ("once://b") =
      (.ok ⟨404, "text/plain", strBytes ("Resource not found")⟩,
        [("a", OnceBuffer.mk ("text/plain") [1])]) :=
  ⟨by decide,
    once_scheme_unknown_key_404 [("a", OnceBuffer.mk ("text/plain") [1])]
      "once://b" (by decide)⟩

/-! ## Thumbnail tolerance window (thumb_scheme, custom_schemes.rs)

`thumb_scheme` computes `((height as f32 * 0.8) as u32, (width as f32 * 0.8)
as u32)` and the analogous `* 1.2` pair.  IEEE-754 `f32` arithmetic on these
values is modelled exactly with integer arithmetic: the constants `0.8f32`
and `1.2f32` are the rationals `13421773 / 2^24` and `10066330 / 2^23`, a
product is rounded to a 24-bit significand with round-to-nearest, ties to
even, and the `as u32` cast truncates toward zero.  The model assumes the
requested dimension is below `2^24`, where the `u32 → f32` conversion is
exact (requests are far below that). -/

/-- Largest `i < 64` with `2 ^ i ≤ p` (for `p ≥ 1`). -/
def floorLog2 (p : ℕ) : ℕ :=
  ((List.range 64).filter (fun i => decide (2 ^ i ≤ p))).foldl max 0

/-- Round `p / d` to the nearest integer, ties to even. -/
def rne (p d : ℕ) : ℕ :=
  let q := p / d
  let r := p % d
  if 2 * r < d then q
  else if d < 2 * r then q + 1
  else if q % 2 = 0 then q else q + 1

/-- The 24-bit significand of the `f32` nearest to `num / 2^den2`
(viewed at binade `floorLog2 num - den2`). -/
def f32mantissa (num : ℕ) : ℕ :=
  let L := floorLog2 num
  if L ≤ 23 then num * 2 ^ (23 - L) else rne num (2 ^ (L - 23))

/-- The cast `(x as u32)` where `x` is the `f32` nearest to `num / 2^den2`:
round the product to a 24-bit significand, then truncate toward zero. -/
def f32truncScaled (num den2 : ℕ) : ℕ :=
  if num = 0 then 0
  else
    let L := floorLog2 num
    let m := f32mantissa num
    if 23 + den2 ≤ L then m * 2 ^ (L - 23 - den2)
    else m / 2 ^ (23 + den2 - L)

/-- Significand of `0.8f32`: `0.8f32 = 13421773 / 2^24`. -/
def c08num : ℕ := 13421773

/-- Significand of `1.2f32`: `1.2f32 = 10066330 / 2^23`. -/
def c12num : ℕ := 10066330

/-- Embedding of the tolerance-window computation of `thumb_scheme`:
`((h*0.8, w*0.8), (h*1.2, w*1.2))` in `f32`, each component truncated to an
integer. -/
def thumb_window (height width : ℕ) : (ℕ × ℕ) × (ℕ × ℕ) :=
  ((f32truncScaled (height * c08num) 24, f32truncScaled (width * c08num) 24),
   (f32truncScaled (height * c12num) 23, f32truncScaled (width * c12num) 23))

/-- Does a stored thumbnail of dimensions `t = (height, width)` fall inside
the inclusive window `[lo, hi]` component-wise? -/
def thumbnail_matches (lo hi t : ℕ × ℕ) : Bool :=
  decide (lo.1 ≤ t.1 ∧ t.1 ≤ hi.1 ∧ lo.2 ≤ t.2 ∧ t.2 ≤ hi.2)

/-- Modelled from the spec: the daemon side of `get_thumbnail_of_size`
(not among the sources) — return the first stored thumbnail whose actual
dimensions satisfy both windows, without rendering; otherwise render
exactly once.  The second component counts render calls. -/
def get_thumbnail_of_size (stored : List (ℕ × ℕ)) (lo hi : ℕ × ℕ) :
    Option (ℕ × ℕ) × ℕ :=
  match stored.find? (thumbnail_matches lo hi) with
  | some t => (some t, 0)
  | none => (none, 1)

/-- C8: the tolerance window is `(trunc(h*0.8), trunc(w*0.8))` to
`(trunc(h*1.2), trunc(w*1.2))` in truncating `f32` arithmetic; a request
for `(100, 100)` yields the window `[80, 120] × [80, 120]`, which an
existing thumbnail sized `(110, 90)` satisfies with zero render calls
(while a request for `(500, 500)` misses it and renders exactly once). -/
theorem thumb_window_tolerance :
    thumb_window 100 100 = ((80, 80), (120, 120)) ∧
    get_thumbnail_of_size [(110, 90)] (thumb_window 100 100).1
        (thumb_window 100 100).2 = (some (110, 90), 0) ∧
    thumb_window 500 500 = ((400, 400), (600, 600)) ∧
    get_thumbnail_of_size [(110, 90)] (thumb_window 500 500).1
        (thumb_window 500 500).2 = (none, 1) := by
  refine ⟨by decide, by decide, by decide, by decide⟩

/-! ## Thumbnail creation (Repo::create_file_thumbnail /
Repo::create_thumbnails_for_file, repo.rs) -/

/-- Modelled from the spec: the canonical size tiers of
`mediarepo_core::thumbnailer::ThumbnailSize` (crate not among the
sources); the concrete dimensions are irrelevant to the claims. -/
inductive ThumbnailSize
  | small
  | medium
  | large
  deriving DecidableEq

/-- Modelled from the spec: `ThumbnailSize::dimensions` — the fixed
`(height, width)` of each canonical tier. -/
def ThumbnailSize.dimensions : ThumbnailSize → ℕ × ℕ
  | .small => (100, 100)
  | .medium => (250, 250)
  | .large => (500, 500)

/-- A `thumbnail` table row as inserted by `Thumbnail::add`. -/
structure ThumbRow where
  cdId : ℕ
  fileId : ℕ
  storageId : ℕ
  height : ℕ
  width : ℕ
  mimeType : Option String
  deriving DecidableEq

/-- Externally observable work done by the thumbnail operations; the claim
needs the render calls. -/
inductive ThumbEvent
  | renderCall (size : ThumbnailSize)
  deriving DecidableEq

/-- Repository configuration relevant to the thumbnail operations: the
optional designated thumbnail storage (its id). -/
structure RepoThumbCfg where
  thumbnailStorage : Option ℕ
  deriving DecidableEq

/-- Embedding of `Repo::get_thumbnail_storage`. -/
def get_thumbnail_storage (r : RepoThumbCfg) : Except String ℕ :=
  match r.thumbnailStorage with
  | some s => .ok s
  | none => .error ("No thumbnail storage configured.")

/-- Embedding of `Repo::store_single_thumbnail`: encode the rendered
thumbnail (the encoder output is the modelled byte payload), store the
bytes in the thumbnail storage via `store_entry`, and insert the
thumbnail row. -/
def store_single_thumbnail (hash : Bytes → ℕ) (storageId : ℕ)
    (store : StoreState) (rows : List ThumbRow) (fileId : ℕ)
    (height width : ℕ) (buf : Bytes) :
    ThumbRow × StoreState × List ThumbRow :=
  let r := store_entry hash store buf
  let row : ThumbRow :=
    ⟨r.1, fileId, storageId, height, width, some ("image/png")⟩
  (row, r.2, rows ++ [row])

/-- Embedding of `Repo::create_file_thumbnail`.  `render` stands for
`File::create_thumbnail` (rendering through the external thumbnailer; its
crate is not among the sources): it may fail, or produce the encoded bytes
of each requested size.  The event list records every render call. -/
def create_file_thumbnail (hash : Bytes → ℕ)
    (render : ThumbnailSize → Except String (List Bytes))
    (r : RepoThumbCfg) (store : StoreState) (rows : List ThumbRow)
    (fileId : ℕ) (size : ThumbnailSize) :
    Except String ThumbRow × List ThumbEvent × StoreState × List ThumbRow :=
  match get_thumbnail_storage r with
  | .error e => (.error e, [], store, rows)
  | .ok storageId =>
    let dims := size.dimensions
    match render size with
    | .error e => (.error e, [.renderCall size], store, rows)
    | .ok thumbs =>
      match thumbs.getLast? with
      | none =>
        (.error ("Failed to create thumbnail"), [.renderCall size], store, rows)
      | some buf =>
        let res := store_single_thumbnail hash storageId store rows fileId
          dims.1 dims.2 buf
        (.ok res.1, [.renderCall size], res.2.1, res.2.2)

/-- Stores each rendered thumbnail in turn (the `for` loop of
`create_thumbnails_for_file`). -/
def store_thumbnail_list (hash : Bytes → ℕ) (storageId : ℕ)
    (store : StoreState) (rows : List ThumbRow) (fileId : ℕ)
    (height width : ℕ) : List Bytes → StoreState × List ThumbRow
  | [] => (store, rows)
  | buf :: rest =>
    let res := store_single_thumbnail hash storageId store rows fileId
      height width buf
    store_thumbnail_list hash storageId res.2.1 res.2.2 fileId height width
      rest

/-- Embedding of `Repo::create_thumbnails_for_file`: check the thumbnail
storage, render the medium tier, store every produced thumbnail. -/
def create_thumbnails_for_file (hash : Bytes → ℕ)
    (render : ThumbnailSize → Except String (List Bytes))
    (r : RepoThumbCfg) (store : StoreState) (rows : List ThumbRow)
    (fileId : ℕ) :
    Except String Unit × List ThumbEvent × StoreState × List ThumbRow :=
  match get_thumbnail_storage r with
  | .error e => (.error e, [], store, rows)
  | .ok storageId =>
    let size := ThumbnailSize.medium
    let dims := size.dimensions
    match render size with
    | .error e => (.error e, [.renderCall size], store, rows)
    | .ok thumbs =>
      let res := store_thumbnail_list hash storageId store rows fileId
        dims.1 dims.2 thumbs
      (.ok (), [.renderCall size], res.1, res.2)

/-- C7: with no thumbnail storage configured, every thumbnail-creation
operation fails with the storage-unavailable error before any render work:
no render call is logged, no bytes are stored, and no thumbnail row is
inserted. -/
theorem thumbnail_storage_checked_first (hash : Bytes → ℕ)
    (render : ThumbnailSize → Except String (List Bytes))
    (r : RepoThumbCfg) (store : StoreState) (rows : List ThumbRow)
    (fileId : ℕ) (size : ThumbnailSize)
    (h : r.thumbnailStorage = none) :
    create_file_thumbnail hash render r store rows fileId size =
      (.error ("No thumbnail storage configured."), [], store, rows) ∧
    create_thumbnails_for_file hash render r store rows fileId =
      (.error ("No thumbnail storage configured."), [], store, rows) := by
  constructor
  · simp [create_file_thumbnail, get_thumbnail_storage, h]
  · simp [create_thumbnails_for_file, get_thumbnail_storage, h]

/-- Concrete check of `thumbnail_storage_checked_first`. -/
theorem thumbnail_storage_checked_first_check :
    (RepoThumbCfg.mk none).thumbnailStorage = none ∧
    (create_file_thumbnail demoHash (fun _ => .ok [[1]])
        (RepoThumbCfg.mk none) ⟨[], [], 0⟩ [] 1 .medium =
      (.error ("No thumbnail storage configured."), [], ⟨[], [], 0⟩, []) ∧
      create_thumbnails_for_file demoHash (fun _ => .ok [[1]])
        (RepoThumbCfg.mk none) ⟨[], [], 0⟩ [] 1 =
      (.error ("No thumbnail storage configured."), [], ⟨[], [], 0⟩, [])) :=
  ⟨rfl,
    thumbnail_storage_checked_first demoHash (fun _ => .ok [[1]])
      (RepoThumbCfg.mk none) ⟨[], [], 0⟩ [] 1 .medium rfl⟩

/-! ## Tag catalog and query engine (repo.rs)

The relational store is an explicit record of the entity tables.  The
sea-orm entity helpers (`Namespace::by_name`, `Tag::by_name`,
`Tag::all_by_name`, the batch inserts, `File::find_by_tags`) and
`mediarepo_core::utils::parse_namespace_and_tag` are not among the
sources; they are modelled from the spec below.  The `Repo` methods
(`add_or_find_tag`, `add_all_tags`, `find_files_by_tags`, `add_file`) are
translated from repo.rs. -/

/-- A `tag` table row: id, optional namespace id, name. -/
structure TagRow where
  id : ℕ
  nsId : Option ℕ
  name : String
  deriving DecidableEq

/-- File lifecycle status (from_model.rs / spec §3). -/
inductive FileStatus
  | imported
  | archived
  | deleted
  deriving DecidableEq

/-- Modelled from the spec: the file-type classification of
`mediarepo-model/src/file_type.rs` (not among the sources); only
`unknown` matters for the claims. -/
inductive FileType
  | image
  | video
  | audio
  | text
  | unknown
  deriving DecidableEq

/-- A `file` table row as inserted by `File::add`. -/
structure FileRow where
  id : ℕ
  storageId : ℕ
  cdId : ℕ
  fileType : FileType
  mimeType : Option String
  status : FileStatus
  creationTime : ℕ
  changeTime : ℕ
  deriving DecidableEq

/-- The relational store: namespace rows `(id, name)`, tag rows, file rows,
the file-tag join table `(file id, tag id)`, and fresh-id counters. -/
structure Db where
  namespaces : List (ℕ × String)
  tags : List TagRow
  files : List FileRow
  fileTags : List (ℕ × ℕ)
  nextNsId : ℕ
  nextTagId : ℕ
  nextFileId : ℕ
  deriving DecidableEq

/-- Resolve a namespace id to its name. -/
def resolveNs (db : Db) (i : ℕ) : Option String :=
  (db.namespaces.find? (fun x => decide (x.1 = i))).map (·.2)

/-- The identity key of a tag row: `(namespace name or none, name)`. -/
def tagKey (db : Db) (t : TagRow) : Option String × String :=
  (t.nsId.bind (resolveNs db), t.name)

/-- Lowercase and trim, the normalization applied to raw tag strings. -/
def trimChars (cs : List Char) : List Char :=
  ((cs.dropWhile (· = ' ')).reverse.dropWhile (· = ' ')).reverse

/-- Split a character list at the first `':'`. -/
def splitFirstColon : List Char → Option (List Char × List Char)
  | [] => none
  | c :: rest =>
    if c = ':' then some ([], rest)
    else (splitFirstColon rest).map (fun p => (c :: p.1, p.2))

/-- Case/whitespace normalization of one part. -/
def normalizePart (cs : List Char) : String :=
  String.mk (trimChars (cs.map Char.toLower))

/-- Modelled from the spec: `mediarepo_core::utils::parse_namespace_and_tag`
(utils.rs is not among the sources).  Split on the first `':'`; the part
before is the namespace (empty means none), the part after the bare name;
both case/whitespace-normalized. -/
def parse_namespace_and_tag (s : String) : Option String × String :=
  match splitFirstColon s.data with
  | some p =>
    let ns := normalizePart p.1
    (if ns = "" then none else some ns, normalizePart p.2)
  | none => (none, normalizePart s.data)

/-- Modelled from the spec: `Namespace::by_name` — look a namespace up by
its (unique) name. -/
def ns_by_name (db : Db) (n : String) : Option (ℕ × String) :=
  db.namespaces.find? (fun x => decide (x.2 = n))

/-- Modelled from the spec: `Namespace::add` — insert a namespace row with
a fresh id. -/
def ns_add (db : Db) (n : String) : (ℕ × String) × Db :=
  ((db.nextNsId, n),
    { db with
      namespaces := db.namespaces ++ [(db.nextNsId, n)]
      nextNsId := db.nextNsId + 1 })

/-- Modelled from the spec: `Tag::by_name` — look a tag up by its identity
key `(namespace name or none, name)`. -/
def tag_by_name (db : Db) (name : String) (ns : Option String) :
    Option TagRow :=
  db.tags.find? (fun t => decide (tagKey db t = (ns, name)))

/-- Modelled from the spec: `Tag::add` — insert a tag row with a fresh
id. -/
def tag_add (db : Db) (name : String) (nsId : Option ℕ) : TagRow × Db :=
  (⟨db.nextTagId, nsId, name⟩,
    { db with
      tags := db.tags ++ [⟨db.nextTagId, nsId, name⟩]
      nextTagId := db.nextTagId + 1 })

/-- Embedding of `Repo::add_unnamespaced_tag`. -/
def add_unnamespaced_tag (db : Db) (name : String) : TagRow × Db :=
  tag_add db name none

/-- Embedding of `Repo::add_or_find_unnamespaced_tag`. -/
def add_or_find_unnamespaced_tag (db : Db) (name : String) : TagRow × Db :=
  match tag_by_name db name none with
  | some t => (t, db)
  | none => add_unnamespaced_tag db name

/-- Embedding of `Repo::add_namespaced_tag`: find-or-create the namespace,
then insert the tag referencing it. -/
def add_namespaced_tag (db : Db) (name nsp : String) : TagRow × Db :=
  match ns_by_name db nsp with
  | some nsRow => tag_add db name (some nsRow.1)
  | none =>
    let r := ns_add db nsp
    tag_add r.2 name (some r.1.1)

/-- Embedding of `Repo::add_or_find_namespaced_tag`. -/
def add_or_find_namespaced_tag (db : Db) (name nsp : String) : TagRow × Db :=
  match tag_by_name db name (some nsp) with
  | some t => (t, db)
  | none => add_namespaced_tag db name nsp

/-- Embedding of `Repo::add_or_find_tag`: parse the raw string, then
dispatch on whether it carries a namespace. -/
def add_or_find_tag (db : Db) (raw : String) : TagRow × Db :=
  let p := parse_namespace_and_tag raw
  match p.1 with
  | some nsp => add_or_find_namespaced_tag db p.2 nsp
  | none => add_or_find_unnamespaced_tag db p.2

/-- Foreign-key check of one tag row: its namespace id, if any, names an
existing namespace row. -/
def tagFkB (db : Db) (t : TagRow) : Bool :=
  match t.nsId with
  | none => true
  | some i => db.namespaces.any (fun x => decide (x.1 = i))

/-- Catalog well-formedness: namespace ids and names are unique, ids are
below the fresh-id counter, tag identity keys are unique, and tag rows
reference existing namespaces. -/
def WF (db : Db) : Prop :=
  (db.namespaces.map Prod.fst).Nodup ∧
  (db.namespaces.map Prod.snd).Nodup ∧
  (∀ x ∈ db.namespaces, x.1 < db.nextNsId) ∧
  (db.tags.map (tagKey db)).Nodup ∧
  (∀ t ∈ db.tags, tagFkB db t = true)

instance (db : Db) : Decidable (WF db) := by
  unfold WF; infer_instance

/-- Number of namespace rows named `n`. -/
def nsCount (db : Db) (n : String) : ℕ :=
  (db.namespaces.filter (fun x => decide (x.2 = n))).length

/-- Unique ids make `find?` by id return the recorded row. -/
lemma find?_id_of_nodup {l : List (ℕ × String)}
    (hnd : (l.map Prod.fst).Nodup) {i : ℕ} {s : String} (hm : (i, s) ∈ l) :
    l.find? (fun x => decide (x.1 = i)) = some (i, s) := by
  induction l with
  | nil => cases hm
  | cons a l ih =>
    rw [List.map_cons, List.nodup_cons] at hnd
    rcases List.mem_cons.1 hm with rfl | hm2
    · simp [List.find?_cons]
    · have hane : a.1 ≠ i := by
        intro hai
        have : i ∈ l.map Prod.fst :=
          List.mem_map.2 ⟨(i, s), hm2, rfl⟩
        exact hnd.1 (hai ▸ this)
      rw [List.find?_cons]
      simp only [decide_eq_false hane]
      exact ih hnd.2 hm2

/-- No row carries an id at or above the fresh-id bound. -/
lemma find?_id_none_of_bound {l : List (ℕ × String)} {N : ℕ}
    (hb : ∀ x ∈ l, x.1 < N) :
    l.find? (fun x => decide (x.1 = N)) = none := by
  rw [List.find?_eq_none]
  intro x hx
  simpa using Nat.ne_of_lt (hb x hx)

/-- The function `tagKey` only reads the namespace table. -/
lemma tagKey_eq_of_namespaces_eq {db db' : Db}
    (h : db'.namespaces = db.namespaces) (t : TagRow) :
    tagKey db' t = tagKey db t := by
  simp [tagKey, resolveNs, h]

/-- Appending namespace rows with unique ids does not change the
resolution of a row already present. -/
lemma resolveNs_of_mem {db : Db}
    (hnd : (db.namespaces.map Prod.fst).Nodup) {i : ℕ} {s : String}
    (hm : (i, s) ∈ db.namespaces) :
    resolveNs db i = some s := by
  unfold resolveNs
  rw [find?_id_of_nodup hnd hm]
  rfl

/-- The key of a well-referenced tag row is unchanged when the namespace
table is extended (overall ids still unique). -/
lemma tagKey_stable {db db' : Db} {extra : List (ℕ × String)}
    (hng : db'.namespaces = db.namespaces ++ extra)
    (hnd' : (db'.namespaces.map Prod.fst).Nodup)
    (hndOld : (db.namespaces.map Prod.fst).Nodup)
    {t : TagRow} (hfk : tagFkB db t = true) :
    tagKey db' t = tagKey db t := by
  unfold tagKey
  cases hns : t.nsId with
  | none => rfl
  | some i =>
    show (resolveNs db' i, t.name) = (resolveNs db i, t.name)
    unfold tagFkB at hfk
    rw [hns] at hfk
    obtain ⟨x, hx, hxi⟩ := List.any_eq_true.1 hfk
    have hxi2 : x.1 = i := of_decide_eq_true hxi
    have hmem : (i, x.2) ∈ db.namespaces := by
      have : x = (i, x.2) := by
        cases x; simp_all
      exact this ▸ hx
    rw [resolveNs_of_mem hndOld hmem]
    have hmem' : (i, x.2) ∈ db'.namespaces := by
      rw [hng]; exact List.mem_append_left _ hmem
    rw [resolveNs_of_mem hnd' hmem']

/-- The function `nsCount` only reads the namespace table. -/
lemma nsCount_eq_of_namespaces_eq {db db' : Db}
    (h : db'.namespaces = db.namespaces) (n : String) :
    nsCount db' n = nsCount db n := by
  simp [nsCount, h]

/-- Find-or-create of an unnamespaced tag is idempotent and never touches
the namespace table. -/
lemma add_or_find_unnamespaced_idem (db : Db) (name : String) :
    add_or_find_unnamespaced_tag
        (add_or_find_unnamespaced_tag db name).2 name =
      add_or_find_unnamespaced_tag db name ∧
    (add_or_find_unnamespaced_tag db name).2.namespaces = db.namespaces := by
  unfold add_or_find_unnamespaced_tag
  cases hf : tag_by_name db name none with
  | some t => simp [hf]
  | none =>
    unfold add_unnamespaced_tag tag_add
    have hfind :
        tag_by_name
          { db with
            tags := db.tags ++ [⟨db.nextTagId, none, name⟩]
            nextTagId := db.nextTagId + 1 } name none =
          some ⟨db.nextTagId, none, name⟩ := by
      unfold tag_by_name
      rw [List.find?_append]
      have hold :
          db.tags.find?
            (fun t => decide (tagKey
              { db with
                tags := db.tags ++ [⟨db.nextTagId, none, name⟩]
                nextTagId := db.nextTagId + 1 } t = (none, name))) = none := by
        rw [List.find?_eq_none]
        intro t ht
        have hsame :
            tagKey
              { db with
                tags := db.tags ++ [⟨db.nextTagId, none, name⟩]
                nextTagId := db.nextTagId + 1 } t = tagKey db t :=
          tagKey_eq_of_namespaces_eq rfl t
        unfold tag_by_name at hf
        rw [List.find?_eq_none] at hf
        have := hf t ht
        simpa [hsame] using this
      rw [hold]
      simp [tagKey]
    rw [hfind]
    exact ⟨rfl, rfl⟩

/-- Find-or-create of a namespaced tag is idempotent (given unique
namespace ids/bounds and tag foreign keys) and adds at most one namespace
row for any name. -/
lemma add_or_find_namespaced_idem (db : Db) (name nsp : String)
    (hNsIds : (db.namespaces.map Prod.fst).Nodup)
    (hNsBound : ∀ x ∈ db.namespaces, x.1 < db.nextNsId)
    (hFk : ∀ t ∈ db.tags, tagFkB db t = true) :
    add_or_find_namespaced_tag
        (add_or_find_namespaced_tag db name nsp).2 name nsp =
      add_or_find_namespaced_tag db name nsp ∧
    ∀ n : String,
      nsCount (add_or_find_namespaced_tag db name nsp).2 n ≤
        nsCount db n + 1 := by
  unfold add_or_find_namespaced_tag
  cases hf : tag_by_name db name (some nsp) with
  | some t => simp [hf]
  | none =>
    unfold add_namespaced_tag
    cases hnsf : ns_by_name db nsp with
    | some nsRow =>
      -- namespace already present
      have hnsRow : nsRow.2 = nsp := by
        have := List.find?_some hnsf
        simpa using this
      have hnsMem : nsRow ∈ db.namespaces := List.mem_of_find?_eq_some hnsf
      unfold tag_add
      have hfind :
          tag_by_name
            { db with
              tags := db.tags ++ [⟨db.nextTagId, some nsRow.1, name⟩]
              nextTagId := db.nextTagId + 1 } name (some nsp) =
            some ⟨db.nextTagId, some nsRow.1, name⟩ := by
        unfold tag_by_name
        rw [List.find?_append]
        have hold :
            db.tags.find?
              (fun t => decide (tagKey
                { db with
                  tags := db.tags ++ [⟨db.nextTagId, some nsRow.1, name⟩]
                  nextTagId := db.nextTagId + 1 } t = (some nsp, name))) =
              none := by
          rw [List.find?_eq_none]
          intro t ht
          have hsame :
              tagKey
                { db with
                  tags := db.tags ++ [⟨db.nextTagId, some nsRow.1, name⟩]
                  nextTagId := db.nextTagId + 1 } t = tagKey db t :=
            tagKey_eq_of_namespaces_eq rfl t
          unfold tag_by_name at hf
          rw [List.find?_eq_none] at hf
          have := hf t ht
          simpa [hsame] using this
        rw [hold]
        have hres : resolveNs db nsRow.1 = some nsp := by
          have hmem : (nsRow.1, nsp) ∈ db.namespaces := by
            have hx : nsRow = (nsRow.1, nsp) := by
              cases nsRow; simp_all
            exact hx ▸ hnsMem
          exact resolveNs_of_mem hNsIds hmem
        simp only [List.find?_cons]
        have hkey :
            tagKey
              { db with
                tags := db.tags ++ [⟨db.nextTagId, some nsRow.1, name⟩]
                nextTagId := db.nextTagId + 1 }
              ⟨db.nextTagId, some nsRow.1, name⟩ = (some nsp, name) := by
          have : resolveNs
              { db with
                tags := db.tags ++ [⟨db.nextTagId, some nsRow.1, name⟩]
                nextTagId := db.nextTagId + 1 } nsRow.1 = some nsp := hres
          simp [tagKey, this]
        simp [hkey]
      rw [hfind]
      refine ⟨rfl, fun n => ?_⟩
      simp [nsCount]
    | none =>
      -- namespace freshly created, then the tag inserted
      unfold ns_add tag_add
      set dbA : Db :=
        { db with
          namespaces := db.namespaces ++ [(db.nextNsId, nsp)]
          nextNsId := db.nextNsId + 1 } with hdbA
      have hnamespacesA : dbA.namespaces = db.namespaces ++ [(db.nextNsId, nsp)] := rfl
      set db1 : Db :=
        { dbA with
          tags := dbA.tags ++ [⟨dbA.nextTagId, some db.nextNsId, name⟩]
          nextTagId := dbA.nextTagId + 1 } with hdb1
      have hnd1 : (db1.namespaces.map Prod.fst).Nodup := by
        show ((db.namespaces ++ [(db.nextNsId, nsp)]).map Prod.fst).Nodup
        rw [List.map_append]
        rw [List.nodup_append]
        refine ⟨hNsIds, List.nodup_singleton _, ?_⟩
        intro a ha
        obtain ⟨x, hx, rfl⟩ := List.mem_map.1 ha
        simp only [List.map_cons, List.map_nil, List.mem_singleton]
        intro hc
        have := hNsBound x hx
        omega
      have hfind : tag_by_name db1 name (some nsp) =
          some ⟨dbA.nextTagId, some db.nextNsId, name⟩ := by
        unfold tag_by_name
        have htags : db1.tags =
            db.tags ++ [⟨dbA.nextTagId, some db.nextNsId, name⟩] := rfl
        rw [htags, List.find?_append]
        have hold :
            db.tags.find?
              (fun t => decide (tagKey db1 t = (some nsp, name))) = none := by
          rw [List.find?_eq_none]
          intro t ht
          have hng1 : db1.namespaces =
              db.namespaces ++ [(db.nextNsId, nsp)] := rfl
          have hsame : tagKey db1 t = tagKey db t :=
            tagKey_stable hng1 hnd1 hNsIds (hFk t ht)
          unfold tag_by_name at hf
          rw [List.find?_eq_none] at hf
          have := hf t ht
          simpa [hsame] using this
        rw [hold]
        have hres : resolveNs db1 db.nextNsId = some nsp := by
          refine resolveNs_of_mem hnd1 ?_
          show (db.nextNsId, nsp) ∈ db.namespaces ++ [(db.nextNsId, nsp)]
          exact List.mem_append_right _ (List.mem_singleton_self _)
        simp [List.find?_cons, tagKey, hres]
      rw [hfind]
      refine ⟨rfl, fun n => ?_⟩
      show nsCount db1 n ≤ nsCount db n + 1
      have h1 : db1.namespaces = db.namespaces ++ [(db.nextNsId, nsp)] := rfl
      simp only [nsCount, h1, List.filter_append, List.length_append]
      have : (List.filter (fun x => decide (x.2 = n))
          [(db.nextNsId, nsp)]).length ≤ 1 := by
        simp only [List.filter]
        split <;> simp
      omega

/-- C5: under a well-formed catalog, `add_or_find_tag` is idempotent: the
second call returns the same tag row (same id) and performs no insert (the
state is unchanged), and the first call creates at most one namespace row
for any namespace name. -/
theorem add_or_find_tag_idempotent (db : Db) (raw : String) (h : WF db) :
    add_or_find_tag (add_or_find_tag db raw).2 raw = add_or_find_tag db raw ∧
    ∀ n : String, nsCount (add_or_find_tag db raw).2 n ≤ nsCount db n + 1 := by
  obtain ⟨hNsIds, hNsNames, hNsBound, hKeys, hFk⟩ := h
  unfold add_or_find_tag
  cases hp : (parse_namespace_and_tag raw).1 with
  | none =>
    simp only [hp]
    obtain ⟨h1, h2⟩ :=
      add_or_find_unnamespaced_idem db (parse_namespace_and_tag raw).2
    refine ⟨h1, fun n => ?_⟩
    rw [nsCount_eq_of_namespaces_eq h2]
    omega
  | some nsp =>
    simp only [hp]
    exact add_or_find_namespaced_idem db (parse_namespace_and_tag raw).2 nsp
      hNsIds hNsBound hFk
/-- Concrete check of `add_or_find_tag_idempotent`: the raw tag
`"character:alice"` against the empty catalog. -/
theorem add_or_find_tag_idempotent_check :
    WF ⟨[], [], [], [], 0, 0, 0⟩ ∧
    (add_or_find_tag (add_or_find_tag ⟨[], [], [], [], 0, 0, 0⟩
          "character:alice").2 ("character:alice") =
        add_or_find_tag ⟨[], [], [], [], 0, 0, 0⟩ ("character:alice") ∧
      ∀ n : String,
        nsCount (add_or_find_tag ⟨[], [], [], [], 0, 0, 0⟩
            "character:alice").2 n ≤
          nsCount ⟨[], [], [], [], 0, 0, 0⟩ n + 1) :=
  ⟨by decide,
    add_or_find_tag_idempotent ⟨[], [], [], [], 0, 0, 0⟩ ("character:alice")
      (by decide)⟩

/-! ## Query engine (Repo::find_files_by_tags, repo.rs) -/

/-- Modelled from the spec: `Tag::all_by_name` (`Repo::tags_by_names`) —
return every tag row whose identity key is among the requested
`(namespace?, name)` pairs. -/
def tags_all_by_name (db : Db) (pairs : List (Option String × String)) :
    List TagRow :=
  db.tags.filter (fun t => decide (tagKey db t ∈ pairs))

/-- Modelled from the spec: `Tag::normalized_name` (tag.rs is not among
the sources) — the canonical `namespace:name` (or bare `name`) form used
as the lookup key into the query's name→negate map. -/
def normalized_name (db : Db) (t : TagRow) : String :=
  match tagKey db t with
  | (some ns, n) => ns ++ ":" ++ n
  | (none, n) => n

/-- Lookup in the `HashMap` built by `HashMap::from_iter` over the query
list: on duplicate keys the last insertion wins. -/
def queryMapGet (l : List (String × Bool)) (k : String) : Option Bool :=
  (l.reverse.find? (fun e => decide (e.1 = k))).map (·.2)

/-- Modelled from the spec: `File::find_by_tags` — a file matches iff it
carries every tag id of a non-negated predicate and none of the negated
ones (conjunctive). -/
def file_find_by_tags (db : Db) (tagIds : List (ℕ × Bool)) : List FileRow :=
  db.files.filter
    (fun f =>
      tagIds.all
        (fun ti =>
          if ti.2 then !(db.fileTags.contains (f.id, ti.1))
          else db.fileTags.contains (f.id, ti.1)))

/-- Embedding of `Repo::find_files_by_tags`: parse every predicate's tag
string, fetch the matching tag rows from the catalog (tags that do not
exist are thereby dropped), pair each found tag id with the negate flag
looked up by normalized name (default `false`), and delegate to
`File::find_by_tags`. -/
def find_files_by_tags (db : Db) (tags : List (String × Bool)) :
    List FileRow :=
  let parsedTags := tags.map (fun t => parse_namespace_and_tag t.1)
  let dbTags := tags_all_by_name db parsedTags
  let tagIds := dbTags.map
    (fun t => (t.id, (queryMapGet tags (normalized_name db t)).getD false))
  file_find_by_tags db tagIds

/-- The catalog of the C2 counterexample: one file (id 1) carrying the
only tag `"a"` (tag id 1). -/
def c2db : Db :=
  { namespaces := []
    tags := [⟨1, none, "a"⟩]
    files := [⟨1, 0, 0, .unknown, none, .imported, 0, 0⟩]
    fileTags := [(1, 1)]
    nextNsId := 0
    nextTagId := 2
    nextFileId := 2 }

/-- C2 counterexample: a single non-negated predicate naming a tag absent
from the catalog does NOT make the result set empty — the query returns
every file. -/
theorem find_files_missing_tag_not_empty :
    find_files_by_tags c2db [("nonexistent", false)] =
      [⟨1, 0, 0, .unknown, none, .imported, 0, 0⟩] ∧
    find_files_by_tags c2db [("nonexistent", false)] ≠ [] := by
  constructor <;> decide

/-- C2 (amended): a predicate naming a tag that does not exist in the
catalog is dropped before the id-level query, whether negated or not; in
particular a query consisting of one such predicate returns all files for
both flag values. -/
theorem find_files_missing_tag_returns_all (db : Db) (name : String)
    (b : Bool)
    (h : ∀ t ∈ db.tags, tagKey db t ≠ parse_namespace_and_tag name) :
    find_files_by_tags db [(name, b)] = db.files := by
  unfold find_files_by_tags
  have hdb : tags_all_by_name db [parse_namespace_and_tag name] = [] := by
    unfold tags_all_by_name
    rw [List.filter_eq_nil_iff]
    intro t ht
    simpa using h t ht
  simp only [List.map_cons, List.map_nil, hdb]
  unfold file_find_by_tags
  simp [List.all_nil]

/-- Concrete check of `find_files_missing_tag_returns_all`. -/
theorem find_files_missing_tag_returns_all_check :
    (∀ t ∈ c2db.tags,
        tagKey c2db t ≠ parse_namespace_and_tag ("nonexistent")) ∧
    find_files_by_tags c2db [("nonexistent", true)] = c2db.files :=
  ⟨by decide,
    find_files_missing_tag_returns_all c2db ("nonexistent") true (by decide)⟩

/-! ## Adding files (Repo::add_file, repo.rs) -/

/-- Repository configuration for file addition: the optional designated
main storage (its id). -/
structure RepoMainCfg where
  mainStorage : Option ℕ
  deriving DecidableEq

/-- Embedding of `Repo::get_main_storage`. -/
def get_main_storage (r : RepoMainCfg) : Except String ℕ :=
  match r.mainStorage with
  | some s => .ok s
  | none => .error ("No main storage configured.")

/-- Embedding of `Repo::add_file`.  `parseMime` stands for
`mime::Mime::from_str(..).ok()` followed by `to_string` and `fileTypeOf`
for `FileType::from` (both external to the sources); `File::add` is
modelled from the spec: insert a file row with a fresh id and status
Imported. -/
def add_file (parseMime : String → Option String)
    (fileTypeOf : String → FileType) (hash : Bytes → ℕ) (r : RepoMainCfg)
    (store : StoreState) (db : Db) (mimeType : Option String)
    (content : Bytes) (creationTime changeTime : ℕ) :
    Except String FileRow × StoreState × Db :=
  match get_main_storage r with
  | .error e => (.error e, store, db)
  | .ok storageId =>
    let sres := store_entry hash store content
    let mtft : Option String × FileType :=
      match mimeType.bind parseMime with
      | some m => (some m, fileTypeOf m)
      | none => (none, .unknown)
    let row : FileRow :=
      ⟨db.nextFileId, storageId, sres.1, mtft.2, mtft.1, .imported,
        creationTime, changeTime⟩
    (.ok row, sres.2,
      { db with files := db.files ++ [row], nextFileId := db.nextFileId + 1 })

/-- C10: when the supplied mime string fails to parse, `add_file` still
succeeds: the stored file row carries no mime type and file type Unknown,
and it is inserted into the file table. -/
theorem add_file_invalid_mime_ok (parseMime : String → Option String)
    (fileTypeOf : String → FileType) (hash : Bytes → ℕ) (r : RepoMainCfg)
    (store : StoreState) (db : Db) (m : String) (content : Bytes)
    (ct mt : ℕ) (sid : ℕ)
    (hms : r.mainStorage = some sid)
    (hparse : parseMime m = none) :
    (add_file parseMime fileTypeOf hash r store db (some m) content
        ct mt).1 =
      .ok ⟨db.nextFileId, sid, (store_entry hash store content).1,
        .unknown, none, .imported, ct, mt⟩ ∧
    (⟨db.nextFileId, sid, (store_entry hash store content).1, .unknown,
        none, .imported, ct, mt⟩ : FileRow) ∈
      (add_file parseMime fileTypeOf hash r store db (some m) content
        ct mt).2.2.files := by
  unfold add_file get_main_storage
  rw [hms]
  simp only [Option.some_bind, hparse]
  constructor
  · trivial
  · exact List.mem_append_right _ (List.mem_singleton_self _)

/-- Concrete check of `add_file_invalid_mime_ok`: a mime string that never
parses. -/
theorem add_file_invalid_mime_ok_check :
    (RepoMainCfg.mk (some 0)).mainStorage = some 0 ∧
    (fun _ : String => (none : Option String)) ("not a mime") = none ∧
    ((add_file (fun _ => none) (fun _ => .unknown) demoHash
          (RepoMainCfg.mk (some 0)) ⟨[], [], 0⟩ c2db (some ("not a mime"))
          [1] 0 0).1 =
        .ok ⟨c2db.nextFileId, 0,
          (store_entry demoHash ⟨[], [], 0⟩ [1]).1, .unknown, none,
          .imported, 0, 0⟩ ∧
      (⟨c2db.nextFileId, 0, (store_entry demoHash ⟨[], [], 0⟩ [1]).1,
          .unknown, none, .imported, 0, 0⟩ : FileRow) ∈
        (add_file (fun _ => none) (fun _ => .unknown) demoHash
          (RepoMainCfg.mk (some 0)) ⟨[], [], 0⟩ c2db (some ("not a mime"))
          [1] 0 0).2.2.files) :=
  ⟨rfl, rfl,
    add_file_invalid_mime_ok (fun _ => none) (fun _ => .unknown) demoHash
      (RepoMainCfg.mk (some 0)) ⟨[], [], 0⟩ c2db ("not a mime") [1] 0 0 0
      rfl rfl⟩

/-! ## Batch tag creation (Repo::add_all_tags, repo.rs)

The sequential `let` steps of `add_all_tags` are translated into named
definitions `aat_*`, one per source step, composed by `add_all_tags`. -/

/-- The embedding of `Itertools::unique`: de-duplicate keeping the first occurrence;
`seen` accumulates the elements already emitted. -/
def dedupFirstAux {α : Type} [DecidableEq α] (seen : List α) :
    List α → List α
  | [] => []
  | a :: l =>
    if a ∈ seen then dedupFirstAux seen l
    else a :: dedupFirstAux (a :: seen) l

/-- De-duplicate a list keeping first occurrences. -/
def dedupFirst {α : Type} [DecidableEq α] (l : List α) : List α :=
  dedupFirstAux [] l

lemma dedupFirstAux_mem {α : Type} [DecidableEq α] (seen : List α)
    (l : List α) (x : α) :
    x ∈ dedupFirstAux seen l ↔ x ∈ l ∧ x ∉ seen := by
  induction l generalizing seen with
  | nil => simp [dedupFirstAux]
  | cons a l ih =>
    by_cases ha : a ∈ seen
    · simp only [dedupFirstAux, if_pos ha, ih, List.mem_cons]
      constructor
      · rintro ⟨h1, h2⟩; exact ⟨Or.inr h1, h2⟩
      · rintro ⟨h1 | h1, h2⟩
        · exact absurd (h1 ▸ ha) h2
        · exact ⟨h1, h2⟩
    · simp only [dedupFirstAux, if_neg ha, List.mem_cons, ih]
      constructor
      · rintro (rfl | ⟨h1, h2⟩)
        · exact ⟨Or.inl rfl, ha⟩
        · exact ⟨Or.inr h1, fun hx => h2 (Or.inr hx)⟩
      · rintro ⟨rfl | h1, h2⟩
        · exact Or.inl rfl
        · by_cases hxa : x = a
          · exact Or.inl hxa
          · exact Or.inr ⟨h1, by simp [hxa, h2]⟩

lemma dedupFirst_mem {α : Type} [DecidableEq α] (l : List α) (x : α) :
    x ∈ dedupFirst l ↔ x ∈ l := by
  simp [dedupFirst, dedupFirstAux_mem]

lemma dedupFirstAux_nodup {α : Type} [DecidableEq α] (seen : List α)
    (l : List α) : (dedupFirstAux seen l).Nodup := by
  induction l generalizing seen with
  | nil => simp [dedupFirstAux]
  | cons a l ih =>
    by_cases ha : a ∈ seen
    · simpa [dedupFirstAux, if_pos ha] using ih seen
    · simp only [dedupFirstAux, if_neg ha, List.nodup_cons]
      refine ⟨?_, ih (a :: seen)⟩
      rw [dedupFirstAux_mem]
      simp

lemma dedupFirst_nodup {α : Type} [DecidableEq α] (l : List α) :
    (dedupFirst l).Nodup := dedupFirstAux_nodup [] l

lemma dedupFirstAux_eq_self {α : Type} [DecidableEq α] {seen l : List α}
    (hl : l.Nodup) (hd : ∀ x ∈ l, x ∉ seen) : dedupFirstAux seen l = l := by
  induction l generalizing seen with
  | nil => rfl
  | cons a l ih =>
    rw [List.nodup_cons] at hl
    have ha : a ∉ seen := hd a (List.mem_cons_self a l)
    rw [dedupFirstAux, if_neg ha]
    congr 1
    refine ih hl.2 ?_
    intro x hx
    rw [List.mem_cons]
    rintro (rfl | hxs)
    · exact hl.1 hx
    · exact hd x (List.mem_cons_of_mem _ hx) hxs

lemma dedupFirst_idem {α : Type} [DecidableEq α] (l : List α) :
    dedupFirst (dedupFirst l) = dedupFirst l :=
  dedupFirstAux_eq_self (dedupFirst_nodup l) (by simp)

/-- Modelled from the spec: `Namespace::all_by_name` — all namespace rows
whose name is among the requested ones. -/
def ns_all_by_name (db : Db) (names : List String) : List (ℕ × String) :=
  db.namespaces.filter (fun x => decide (x.2 ∈ names))

/-- Modelled from the spec: `Namespace::add_all` — one batch insert of the
given names, each with a fresh id; returns the created rows. -/
def ns_add_all (db : Db) : List String → List (ℕ × String) × Db
  | [] => ([], db)
  | n :: rest =>
    let r := ns_add db n
    let rr := ns_add_all r.2 rest
    (r.1 :: rr.1, rr.2)

/-- Modelled from the spec: `Tag::add_all` — one batch insert of tag rows
for the given `(namespace id?, name)` pairs; returns the created rows. -/
def tag_add_all (db : Db) : List (Option ℕ × String) → List TagRow × Db
  | [] => ([], db)
  | p :: rest =>
    let r := tag_add db p.2 p.1
    let rr := tag_add_all r.2 rest
    (r.1 :: rr.1, rr.2)

/-- Lookup in the name→id map built from the namespace rows (unique names,
so first match equals the `HashMap` behavior). -/
def ns_map_lookup (l : List (String × ℕ)) (k : String) : Option ℕ :=
  (l.find? (fun e => decide (e.1 = k))).map (·.2)

/-- The identity key a to-be-inserted pair will have once inserted. -/
def pairKey (db : Db) (p : Option ℕ × String) : Option String × String :=
  (p.1.bind (resolveNs db), p.2)

/-- Step 1 of `add_all_tags`: de-duplicate the input list. -/
def aat_tags_to_add (tags : List (Option String × String)) :
    List (Option String × String) :=
  dedupFirst tags

/-- Step 2: the distinct namespace names referenced by the input. -/
def aat_ns_referenced (tags : List (Option String × String)) : List String :=
  dedupFirst ((aat_tags_to_add tags).filterMap Prod.fst)

/-- Step 3: the referenced namespaces that already exist. -/
def aat_ns_existing (db : Db) (tags : List (Option String × String)) :
    List (ℕ × String) :=
  ns_all_by_name db (aat_ns_referenced tags)

/-- Step 4: the referenced namespaces that are missing (the `retain`). -/
def aat_ns_missing (db : Db) (tags : List (Option String × String)) :
    List String :=
  (aat_ns_referenced tags).filter
    (fun n => decide (n ∉ (aat_ns_existing db tags).map Prod.snd))

/-- Step 5: the state after the namespace batch insert. -/
def aat_db1 (db : Db) (tags : List (Option String × String)) : Db :=
  (ns_add_all db (aat_ns_missing db tags)).2

/-- Step 5 (rows): the namespace rows created by the batch insert. -/
def aat_ns_new (db : Db) (tags : List (Option String × String)) :
    List (ℕ × String) :=
  (ns_add_all db (aat_ns_missing db tags)).1

/-- Step 6: existing plus newly created namespaces (the `append`). -/
def aat_ns_all (db : Db) (tags : List (Option String × String)) :
    List (ℕ × String) :=
  aat_ns_existing db tags ++ aat_ns_new db tags

/-- Step 7: the requested tags that already exist, fetched after the
namespace insert. -/
def aat_tags_existing (db : Db) (tags : List (Option String × String)) :
    List TagRow :=
  tags_all_by_name (aat_db1 db tags) (aat_tags_to_add tags)

/-- Step 8: the requested tags that are missing (the second `retain`). -/
def aat_tags_missing (db : Db) (tags : List (Option String × String)) :
    List (Option String × String) :=
  (aat_tags_to_add tags).filter
    (fun p =>
      decide (p ∉ (aat_tags_existing db tags).map (tagKey (aat_db1 db tags))))

/-- Step 9: the namespace-name→id map. -/
def aat_ns_map (db : Db) (tags : List (Option String × String)) :
    List (String × ℕ) :=
  (aat_ns_all db tags).map (fun x => (x.2, x.1))

/-- Step 10: missing tags with their namespace names resolved to ids. -/
def aat_tags_resolved (db : Db) (tags : List (Option String × String)) :
    List (Option ℕ × String) :=
  (aat_tags_missing db tags).map
    (fun p => (p.1.bind (ns_map_lookup (aat_ns_map db tags)), p.2))

/-- Embedding of `Repo::add_all_tags`: the pipeline above, ending in the
tag batch insert; returns the pre-existing tags followed by the newly
created ones, and the final state. -/
def add_all_tags (db : Db) (tags : List (Option String × String)) :
    List TagRow × Db :=
  let r := tag_add_all (aat_db1 db tags) (aat_tags_resolved db tags)
  (aat_tags_existing db tags ++ r.1, r.2)

/-- Structure of the namespace batch insert: the tag table is untouched,
the created rows are appended, they carry exactly the requested names and
fresh, distinct, bounded ids. -/
lemma ns_add_all_spec (db : Db) (names : List String) :
    (ns_add_all db names).2.tags = db.tags ∧
    (ns_add_all db names).2.namespaces =
      db.namespaces ++ (ns_add_all db names).1 ∧
    (ns_add_all db names).1.map Prod.snd = names ∧
    (∀ x ∈ (ns_add_all db names).1,
      db.nextNsId ≤ x.1 ∧ x.1 < (ns_add_all db names).2.nextNsId) ∧
    db.nextNsId ≤ (ns_add_all db names).2.nextNsId ∧
    ((ns_add_all db names).1.map Prod.fst).Nodup ∧
    (ns_add_all db names).2.nextTagId = db.nextTagId := by
  induction names generalizing db with
  | nil => simp [ns_add_all]
  | cons n rest ih =>
    obtain ⟨ht, hns, hnames, hbounds, hmono, hnodup, htid⟩ := ih (ns_add db n).2
    have hstep1 : (ns_add_all db (n :: rest)).1 =
        (db.nextNsId, n) :: (ns_add_all (ns_add db n).2 rest).1 := rfl
    have hstep2 : (ns_add_all db (n :: rest)).2 =
        (ns_add_all (ns_add db n).2 rest).2 := rfl
    have hcnt : (ns_add db n).2.nextNsId = db.nextNsId + 1 := rfl
    refine ⟨?_, ?_, ?_, ?_, ?_, ?_, ?_⟩
    · rw [hstep2]; exact ht
    · rw [hstep2, hstep1, hns]
      show ((db.namespaces ++ [(db.nextNsId, n)]) ++ _) = _
      rw [List.append_assoc, List.singleton_append]
    · rw [hstep1, List.map_cons, hnames]
    · rw [hstep1, hstep2]
      intro x hx
      rcases List.mem_cons.1 hx with rfl | hx2
      · constructor
        · exact le_refl _
        · have := hmono
          rw [hcnt] at this
          omega
      · have := hbounds x hx2
        rw [hcnt] at this
        omega
    · rw [hstep2]
      rw [hcnt] at hmono
      omega
    · rw [hstep1, List.map_cons]
      rw [List.nodup_cons]
      refine ⟨?_, hnodup⟩
      intro hmem
      obtain ⟨x, hx, hxeq⟩ := List.mem_map.1 hmem
      have := hbounds x hx
      rw [hcnt] at this
      omega
    · rw [hstep2]; exact htid

/-- Structure of the tag batch insert: the namespace table is untouched,
the created rows are appended, and they carry exactly the requested
`(namespace id?, name)` pairs. -/
lemma tag_add_all_spec (db : Db) (pairs : List (Option ℕ × String)) :
    (tag_add_all db pairs).2.namespaces = db.namespaces ∧
    (tag_add_all db pairs).2.tags = db.tags ++ (tag_add_all db pairs).1 ∧
    (tag_add_all db pairs).1.map (fun t => (t.nsId, t.name)) = pairs ∧
    (tag_add_all db pairs).2.nextNsId = db.nextNsId := by
  induction pairs generalizing db with
  | nil => simp [tag_add_all]
  | cons p rest ih =>
    obtain ⟨hns, ht, hpairs, hcnt⟩ := ih (tag_add db p.2 p.1).2
    have hstep1 : (tag_add_all db (p :: rest)).1 =
        (⟨db.nextTagId, p.1, p.2⟩ : TagRow) ::
          (tag_add_all (tag_add db p.2 p.1).2 rest).1 := rfl
    have hstep2 : (tag_add_all db (p :: rest)).2 =
        (tag_add_all (tag_add db p.2 p.1).2 rest).2 := rfl
    refine ⟨?_, ?_, ?_, ?_⟩
    · rw [hstep2]; exact hns
    · rw [hstep2, hstep1, ht]
      show ((db.tags ++ [⟨db.nextTagId, p.1, p.2⟩]) ++ _) = _
      rw [List.append_assoc, List.singleton_append]
    · rw [hstep1, List.map_cons, hpairs]
    · rw [hstep2]; exact hcnt

lemma resolveNs_eq_of_namespaces_eq {db db' : Db}
    (h : db'.namespaces = db.namespaces) (i : ℕ) :
    resolveNs db' i = resolveNs db i := by
  simp [resolveNs, h]

lemma tagFkB_eq_of_namespaces_eq {db db' : Db}
    (h : db'.namespaces = db.namespaces) (t : TagRow) :
    tagFkB db' t = tagFkB db t := by
  unfold tagFkB
  cases t.nsId <;> simp [h]

lemma tagFkB_mono_append {db db' : Db} {extra : List (ℕ × String)}
    (h : db'.namespaces = db.namespaces ++ extra) {t : TagRow}
    (hfk : tagFkB db t = true) : tagFkB db' t = true := by
  unfold tagFkB at hfk ⊢
  cases hns : t.nsId with
  | none => rfl
  | some i =>
    rw [hns] at hfk
    have hfk2 : (db.namespaces.any fun x => decide (x.1 = i)) = true := hfk
    show (db'.namespaces.any fun x => decide (x.1 = i)) = true
    rw [h, List.any_append, hfk2, Bool.true_or]

/-- The namespace batch insert preserves well-formedness when the inserted
names are distinct and none of them already exists. -/
lemma ns_add_all_wf (db : Db) (names : List String) (h : WF db)
    (hnd : names.Nodup)
    (hfresh : ∀ n ∈ names, ∀ x ∈ db.namespaces, x.2 ≠ n) :
    WF (ns_add_all db names).2 := by
  obtain ⟨hIds, hNames, hBound, hKeys, hFk⟩ := h
  obtain ⟨ht, hns, hnames, hbounds, hmono, hnodupIds, htid⟩ :=
    ns_add_all_spec db names
  have hnd1 : ((ns_add_all db names).2.namespaces.map Prod.fst).Nodup := by
    rw [hns, List.map_append, List.nodup_append]
    refine ⟨hIds, hnodupIds, ?_⟩
    intro a ha hb
    obtain ⟨x, hx, rfl⟩ := List.mem_map.1 ha
    obtain ⟨y, hy, hyx⟩ := List.mem_map.1 hb
    have h1 := hBound x hx
    have h2 := (hbounds y hy).1
    omega
  refine ⟨hnd1, ?_, ?_, ?_, ?_⟩
  · rw [hns, List.map_append, List.nodup_append]
    refine ⟨hNames, ?_, ?_⟩
    · rw [hnames]; exact hnd
    · intro a ha hb
      obtain ⟨x, hx, rfl⟩ := List.mem_map.1 ha
      rw [hnames] at hb
      exact hfresh x.2 hb x hx rfl
  · intro x hx
    rw [hns] at hx
    rcases List.mem_append.1 hx with hx1 | hx2
    · have := hBound x hx1
      omega
    · exact (hbounds x hx2).2
  · rw [ht]
    have : db.tags.map (tagKey (ns_add_all db names).2) =
        db.tags.map (tagKey db) := by
      refine List.map_congr_left ?_
      intro t htm
      exact tagKey_stable hns hnd1 hIds (hFk t htm)
    rw [this]
    exact hKeys
  · intro t htm
    rw [ht] at htm
    exact tagFkB_mono_append hns (hFk t htm)

/-- The tag batch insert preserves well-formedness when the inserted pairs
have distinct identity keys, none of which is already taken, and reference
existing namespaces. -/
lemma tag_add_all_wf (db : Db) (pairs : List (Option ℕ × String)) (h : WF db)
    (hknd : (pairs.map (pairKey db)).Nodup)
    (hdisj : ∀ p ∈ pairs, pairKey db p ∉ db.tags.map (tagKey db))
    (hfk : ∀ p ∈ pairs, ∀ i, p.1 = some i → i ∈ db.namespaces.map Prod.fst) :
    WF (tag_add_all db pairs).2 := by
  obtain ⟨hIds, hNames, hBound, hKeys, hFk⟩ := h
  obtain ⟨hns, ht, hpairs, hcnt⟩ := tag_add_all_spec db pairs
  have hkeyeq : ∀ t : TagRow,
      tagKey (tag_add_all db pairs).2 t = tagKey db t := fun t =>
    tagKey_eq_of_namespaces_eq hns t
  have hrowkeys :
      (tag_add_all db pairs).1.map (tagKey (tag_add_all db pairs).2) =
        pairs.map (pairKey db) := by
    have h1 :
        (tag_add_all db pairs).1.map (tagKey (tag_add_all db pairs).2) =
          (tag_add_all db pairs).1.map
            (fun t => pairKey db (t.nsId, t.name)) := by
      refine List.map_congr_left ?_
      intro t htm
      rw [hkeyeq t]
      unfold tagKey pairKey
      rfl
    have h2 : (tag_add_all db pairs).1.map
        (fun t => pairKey db (t.nsId, t.name)) =
          ((tag_add_all db pairs).1.map
            (fun t => (t.nsId, t.name))).map (pairKey db) := by
      rw [List.map_map]
      rfl
    rw [h1, h2, hpairs]
  refine ⟨?_, ?_, ?_, ?_, ?_⟩
  · rw [hns]; exact hIds
  · rw [hns]; exact hNames
  · intro x hx
    rw [hns] at hx
    rw [hcnt]
    exact hBound x hx
  · rw [ht, List.map_append, hrowkeys]
    have hold : db.tags.map (tagKey (tag_add_all db pairs).2) =
        db.tags.map (tagKey db) :=
      List.map_congr_left fun t _ => hkeyeq t
    rw [hold, List.nodup_append]
    refine ⟨hKeys, hknd, ?_⟩
    intro a ha hb
    obtain ⟨p, hp, rfl⟩ := List.mem_map.1 hb
    exact hdisj p hp ha
  · intro t htm
    rw [ht] at htm
    rcases List.mem_append.1 htm with h1 | h2
    · rw [tagFkB_eq_of_namespaces_eq hns t]
      exact hFk t h1
    · unfold tagFkB
      cases hnsid : t.nsId with
      | none => rfl
      | some i =>
        have hpmem : (t.nsId, t.name) ∈ pairs := by
          rw [← hpairs]
          exact List.mem_map.2 ⟨t, h2, rfl⟩
        rw [hnsid] at hpmem
        have := hfk (some i, t.name) hpmem i rfl
        obtain ⟨x, hx, hxi⟩ := List.mem_map.1 this
        rw [hns, List.any_eq_true]
        exact ⟨x, hx, by simp [hxi]⟩

/-- If some row carries name `n`, the name→id map resolves `n` to the id
of such a row. -/
lemma ns_map_lookup_spec (l : List (ℕ × String)) (n : String)
    (hex : ∃ x ∈ l, x.2 = n) :
    ∃ i, ns_map_lookup (l.map (fun x => (x.2, x.1))) n = some i ∧
      (i, n) ∈ l := by
  induction l with
  | nil => obtain ⟨x, hx, _⟩ := hex; cases hx
  | cons a l ih =>
    by_cases ha : a.2 = n
    · refine ⟨a.1, ?_, ?_⟩
      · unfold ns_map_lookup
        rw [List.map_cons, List.find?_cons]
        simp [ha]
      · have : a = (a.1, n) := by cases a; simp_all
        rw [this] at *
        exact List.mem_cons_self _ _
    · obtain ⟨x, hx, hxn⟩ := hex
      have hx2 : x ∈ l := by
        rcases List.mem_cons.1 hx with rfl | h2
        · exact absurd hxn ha
        · exact h2
      obtain ⟨i, h1, h2⟩ := ih ⟨x, hx2, hxn⟩
      refine ⟨i, ?_, List.mem_cons_of_mem _ h2⟩
      unfold ns_map_lookup at h1 ⊢
      rw [List.map_cons, List.find?_cons]
      simp only [decide_eq_false ha]
      exact h1

/-- A successful name→id lookup comes from a recorded row. -/
lemma ns_map_lookup_mem {l : List (ℕ × String)} {n : String} {i : ℕ}
    (h : ns_map_lookup (l.map (fun x => (x.2, x.1))) n = some i) :
    (i, n) ∈ l := by
  unfold ns_map_lookup at h
  cases hf : (l.map (fun x => (x.2, x.1))).find?
      (fun e => decide (e.1 = n)) with
  | none => rw [hf] at h; cases h
  | some e =>
    rw [hf] at h
    have he2 : e.2 = i := by simpa using h
    have hen : e.1 = n := by
      have := List.find?_some hf
      simpa using this
    have hmem := List.mem_of_find?_eq_some hf
    obtain ⟨x, hx, hxe⟩ := List.mem_map.1 hmem
    have : x = (i, n) := by
      cases x
      cases e
      simp_all
    exact this ▸ hx

/-- Every name referenced by the de-duplicated input is covered by the
existing-plus-created namespace rows. -/
lemma aat_ns_cover (db : Db) (tags : List (Option String × String))
    (n : String) (hn : n ∈ aat_ns_referenced tags) :
    ∃ x ∈ aat_ns_all db tags, x.2 = n := by
  by_cases hex : n ∈ (aat_ns_existing db tags).map Prod.snd
  · obtain ⟨x, hx, hxe⟩ := List.mem_map.1 hex
    exact ⟨x, List.mem_append_left _ hx, hxe⟩
  · have hmiss : n ∈ aat_ns_missing db tags := by
      unfold aat_ns_missing
      rw [List.mem_filter]
      exact ⟨hn, by simpa using hex⟩
    have hnames := (ns_add_all_spec db (aat_ns_missing db tags)).2.2.1
    have : n ∈ (aat_ns_new db tags).map Prod.snd := by
      unfold aat_ns_new
      rw [hnames]
      exact hmiss
    obtain ⟨x, hx, hxe⟩ := List.mem_map.1 this
    exact ⟨x, List.mem_append_right _ hx, hxe⟩

/-- The existing-plus-created namespace rows are all recorded in the state
after the namespace batch insert. -/
lemma aat_ns_all_sub (db : Db) (tags : List (Option String × String)) :
    ∀ x ∈ aat_ns_all db tags, x ∈ (aat_db1 db tags).namespaces := by
  intro x hx
  have hns := (ns_add_all_spec db (aat_ns_missing db tags)).2.1
  show x ∈ (ns_add_all db (aat_ns_missing db tags)).2.namespaces
  rw [hns]
  rcases List.mem_append.1 hx with h1 | h2
  · refine List.mem_append_left _ ?_
    have : x ∈ db.namespaces.filter
        (fun y => decide (y.2 ∈ aat_ns_referenced tags)) := h1
    exact List.mem_of_mem_filter this
  · exact List.mem_append_right _ h2

/-- The state after the namespace batch insert of `add_all_tags` is
well-formed. -/
lemma aat_db1_wf (db : Db) (tags : List (Option String × String))
    (h : WF db) : WF (aat_db1 db tags) := by
  refine ns_add_all_wf db _ h ?_ ?_
  · exact (dedupFirst_nodup _).filter _
  · intro n hn x hx hxn
    unfold aat_ns_missing at hn
    rw [List.mem_filter] at hn
    obtain ⟨hn1, hn2⟩ := hn
    have hxex : x ∈ aat_ns_existing db tags := by
      unfold aat_ns_existing ns_all_by_name
      rw [List.mem_filter]
      refine ⟨hx, ?_⟩
      rw [hxn]
      simpa using hn1
    have : n ∈ (aat_ns_existing db tags).map Prod.snd :=
      List.mem_map.2 ⟨x, hxex, hxn⟩
    simp only [decide_eq_true_eq] at hn2
    exact hn2 this

/-- Resolving a missing pair's namespace name to an id and back to a name
through the final catalog gives back the original pair. -/
lemma aat_resolve_roundtrip (db : Db) (tags : List (Option String × String))
    (h : WF db) (p : Option String × String)
    (hp : p ∈ aat_tags_missing db tags) :
    pairKey (aat_db1 db tags)
      (p.1.bind (ns_map_lookup (aat_ns_map db tags)), p.2) = p := by
  have hWF1 := aat_db1_wf db tags h
  obtain ⟨p1, p2⟩ := p
  cases hp1 : p1 with
  | none => simp [pairKey]
  | some n =>
    have hpta : (p1, p2) ∈ aat_tags_to_add tags := by
      unfold aat_tags_missing at hp
      exact (List.mem_filter.1 hp).1
    have hn : n ∈ aat_ns_referenced tags := by
      unfold aat_ns_referenced
      rw [dedupFirst_mem]
      refine List.mem_filterMap.2 ⟨(p1, p2), hpta, ?_⟩
      simp [hp1]
    obtain ⟨x, hxall, hxn⟩ := aat_ns_cover db tags n hn
    obtain ⟨i, hlook, hmem⟩ :=
      ns_map_lookup_spec (aat_ns_all db tags) n ⟨x, hxall, hxn⟩
    have hmem1 : (i, n) ∈ (aat_db1 db tags).namespaces :=
      aat_ns_all_sub db tags _ hmem
    have hres : resolveNs (aat_db1 db tags) i = some n :=
      resolveNs_of_mem hWF1.1 hmem1
    have hlook2 : ns_map_lookup (aat_ns_map db tags) n = some i := hlook
    unfold pairKey
    show ((ns_map_lookup (aat_ns_map db tags) n).bind
        (resolveNs (aat_db1 db tags)), p2) = (some n, p2)
    rw [hlook2]
    show (resolveNs (aat_db1 db tags) i, p2) = (some n, p2)
    rw [hres]

/-- The keys the resolved missing pairs will carry are exactly the missing
pairs themselves. -/
lemma aat_resolved_keys (db : Db) (tags : List (Option String × String))
    (h : WF db) :
    (aat_tags_resolved db tags).map (pairKey (aat_db1 db tags)) =
      aat_tags_missing db tags := by
  unfold aat_tags_resolved
  rw [List.map_map]
  have hcongr : ∀ p ∈ aat_tags_missing db tags,
      (pairKey (aat_db1 db tags) ∘ fun p =>
        (p.1.bind (ns_map_lookup (aat_ns_map db tags)), p.2)) p = id p :=
    fun p hp => aat_resolve_roundtrip db tags h p hp
  rw [List.map_congr_left hcongr, List.map_id]

/-- Keys of the rows created by the tag batch insert. -/
lemma tag_add_all_keys (db : Db) (pairs : List (Option ℕ × String)) :
    (tag_add_all db pairs).1.map (tagKey (tag_add_all db pairs).2) =
      pairs.map (pairKey db) := by
  obtain ⟨hns, ht, hpairs, hcnt⟩ := tag_add_all_spec db pairs
  have h1 :
      (tag_add_all db pairs).1.map (tagKey (tag_add_all db pairs).2) =
        (tag_add_all db pairs).1.map
          (fun t => pairKey db (t.nsId, t.name)) := by
    refine List.map_congr_left ?_
    intro t htm
    rw [tagKey_eq_of_namespaces_eq hns t]
    unfold tagKey pairKey
    rfl
  have h2 : (tag_add_all db pairs).1.map
      (fun t => pairKey db (t.nsId, t.name)) =
        ((tag_add_all db pairs).1.map
          (fun t => (t.nsId, t.name))).map (pairKey db) := by
    rw [List.map_map]
    rfl
  rw [h1, h2, hpairs]

/-- C4: `add_all_tags` first de-duplicates its input (the de-duplicated
input produces the identical call result), inserts only namespaces and
tag pairs not already present (well-formedness — in particular uniqueness
of namespace names and of tag identity keys — is preserved, and every
pre-existing row survives), and returns exactly the tags of the requested
keys: the union of the pre-existing and the newly created ones. -/
theorem add_all_tags_correct (db : Db) (tags : List (Option String × String))
    (h : WF db) :
    add_all_tags db (dedupFirst tags) = add_all_tags db tags ∧
    WF (add_all_tags db tags).2 ∧
    (∀ x ∈ db.namespaces, x ∈ (add_all_tags db tags).2.namespaces) ∧
    (∀ t ∈ db.tags, t ∈ (add_all_tags db tags).2.tags) ∧
    (∀ p : Option String × String,
      p ∈ (add_all_tags db tags).1.map (tagKey (add_all_tags db tags).2) ↔
        p ∈ tags) := by
  have hWF1 := aat_db1_wf db tags h
  have hmissingNodup : (aat_tags_missing db tags).Nodup :=
    (dedupFirst_nodup tags).filter _
  have hrk := aat_resolved_keys db tags h
  -- membership characterization of the missing pairs
  have hmissachar : ∀ p : Option String × String,
      p ∈ aat_tags_missing db tags ↔
        p ∈ aat_tags_to_add tags ∧
          p ∉ (aat_tags_existing db tags).map (tagKey (aat_db1 db tags)) := by
    intro p
    unfold aat_tags_missing
    rw [List.mem_filter]
    simp
  -- the disjointness precondition of the tag batch insert
  have hdisj : ∀ q ∈ aat_tags_resolved db tags,
      pairKey (aat_db1 db tags) q ∉
        (aat_db1 db tags).tags.map (tagKey (aat_db1 db tags)) := by
    intro q hq
    unfold aat_tags_resolved at hq
    obtain ⟨p, hp, rfl⟩ := List.mem_map.1 hq
    rw [aat_resolve_roundtrip db tags h p hp]
    obtain ⟨hta, hnotin⟩ := (hmissachar p).1 hp
    intro hcontra
    obtain ⟨t, ht, hkey⟩ := List.mem_map.1 hcontra
    refine hnotin (List.mem_map.2 ⟨t, ?_, hkey⟩)
    unfold aat_tags_existing tags_all_by_name
    rw [List.mem_filter]
    refine ⟨ht, ?_⟩
    rw [hkey]
    simpa using hta
  -- the foreign-key precondition of the tag batch insert
  have hfkpre : ∀ q ∈ aat_tags_resolved db tags, ∀ i, q.1 = some i →
      i ∈ (aat_db1 db tags).namespaces.map Prod.fst := by
    intro q hq i hqi
    unfold aat_tags_resolved at hq
    obtain ⟨p, hp, rfl⟩ := List.mem_map.1 hq
    simp only at hqi
    obtain ⟨n, hn1, hn2⟩ := Option.bind_eq_some.1 hqi
    have hmem : (i, n) ∈ aat_ns_all db tags := ns_map_lookup_mem hn2
    exact List.mem_map.2 ⟨(i, n), aat_ns_all_sub db tags _ hmem, rfl⟩
  have hWF2 : WF (add_all_tags db tags).2 := by
    show WF (tag_add_all (aat_db1 db tags) (aat_tags_resolved db tags)).2
    refine tag_add_all_wf _ _ hWF1 ?_ hdisj hfkpre
    rw [hrk]
    exact hmissingNodup
  obtain ⟨hns2, ht2, hpairs2, hcnt2⟩ :=
    tag_add_all_spec (aat_db1 db tags) (aat_tags_resolved db tags)
  obtain ⟨ht1, hns1, _, _, _, _, _⟩ :=
    ns_add_all_spec db (aat_ns_missing db tags)
  refine ⟨?_, hWF2, ?_, ?_, ?_⟩
  · -- de-duplicating the input does not change the call
    simp only [add_all_tags, aat_tags_resolved, aat_ns_map,
      aat_tags_missing, aat_tags_existing, aat_ns_all, aat_ns_new, aat_db1,
      aat_ns_missing, aat_ns_existing, aat_ns_referenced, aat_tags_to_add,
      dedupFirst_idem]
  · -- every pre-existing namespace row survives
    intro x hx
    have : (add_all_tags db tags).2.namespaces =
        (aat_db1 db tags).namespaces := hns2
    rw [this]
    show x ∈ (ns_add_all db (aat_ns_missing db tags)).2.namespaces
    rw [hns1]
    exact List.mem_append_left _ hx
  · -- every pre-existing tag row survives
    intro t ht
    have : (add_all_tags db tags).2.tags =
        (aat_db1 db tags).tags ++
          (tag_add_all (aat_db1 db tags) (aat_tags_resolved db tags)).1 :=
      ht2
    rw [this]
    refine List.mem_append_left _ ?_
    show t ∈ (ns_add_all db (aat_ns_missing db tags)).2.tags
    rw [ht1]
    exact ht
  · -- the returned tags carry exactly the requested keys
    intro p
    have hresult1 : (add_all_tags db tags).1 =
        aat_tags_existing db tags ++
          (tag_add_all (aat_db1 db tags) (aat_tags_resolved db tags)).1 :=
      rfl
    have hresult2 : (add_all_tags db tags).2 =
        (tag_add_all (aat_db1 db tags) (aat_tags_resolved db tags)).2 := rfl
    rw [hresult1, hresult2, List.map_append]
    have hkeysE :
        (aat_tags_existing db tags).map
          (tagKey (tag_add_all (aat_db1 db tags)
            (aat_tags_resolved db tags)).2) =
          (aat_tags_existing db tags).map (tagKey (aat_db1 db tags)) :=
      List.map_congr_left fun t _ => tagKey_eq_of_namespaces_eq hns2 t
    have hkeysN :
        (tag_add_all (aat_db1 db tags) (aat_tags_resolved db tags)).1.map
          (tagKey (tag_add_all (aat_db1 db tags)
            (aat_tags_resolved db tags)).2) =
          aat_tags_missing db tags := by
      rw [tag_add_all_keys, hrk]
    rw [hkeysE, hkeysN, List.mem_append]
    constructor
    · rintro (hleft | hright)
      · obtain ⟨t, ht, rfl⟩ := List.mem_map.1 hleft
        have := List.mem_filter.1 ht
        have hkey : tagKey (aat_db1 db tags) t ∈ aat_tags_to_add tags := by
          simpa using this.2
        unfold aat_tags_to_add at hkey
        exact (dedupFirst_mem _ _).1 hkey
      · have := ((hmissachar p).1 hright).1
        unfold aat_tags_to_add at this
        exact (dedupFirst_mem _ _).1 this
    · intro hp
      have hta : p ∈ aat_tags_to_add tags := by
        unfold aat_tags_to_add
        exact (dedupFirst_mem _ _).2 hp
      by_cases hpe :
          p ∈ (aat_tags_existing db tags).map (tagKey (aat_db1 db tags))
      · exact Or.inl hpe
      · exact Or.inr ((hmissachar p).2 ⟨hta, hpe⟩)

/-- Concrete check of `add_all_tags_correct`: inserting
`[("artist", "bob")]` (with a duplicate in the input) into the empty
catalog. -/
theorem add_all_tags_correct_check :
    WF ⟨[], [], [], [], 0, 0, 0⟩ ∧
    (add_all_tags ⟨[], [], [], [], 0, 0, 0⟩
        (dedupFirst [(some ("artist"), "bob"), (some ("artist"), "bob")]) =
      add_all_tags ⟨[], [], [], [], 0, 0, 0⟩
        [(some ("artist"), "bob"), (some ("artist"), "bob")] ∧
      WF (add_all_tags ⟨[], [], [], [], 0, 0, 0⟩
        [(some ("artist"), "bob"), (some ("artist"), "bob")]).2 ∧
      (∀ x ∈ (⟨[], [], [], [], 0, 0, 0⟩ : Db).namespaces,
        x ∈ (add_all_tags ⟨[], [], [], [], 0, 0, 0⟩
          [(some ("artist"), "bob"), (some ("artist"), "bob")]).2.namespaces) ∧
      (∀ t ∈ (⟨[], [], [], [], 0, 0, 0⟩ : Db).tags,
        t ∈ (add_all_tags ⟨[], [], [], [], 0, 0, 0⟩
          [(some ("artist"), "bob"), (some ("artist"), "bob")]).2.tags) ∧
      (∀ p : Option String × String,
        p ∈ (add_all_tags ⟨[], [], [], [], 0, 0, 0⟩
            [(some ("artist"), "bob"), (some ("artist"), "bob")]).1.map
            (tagKey (add_all_tags ⟨[], [], [], [], 0, 0, 0⟩
              [(some ("artist"), "bob"), (some ("artist"), "bob")]).2) ↔
          p ∈ [(some ("artist"), "bob"), (some ("artist"), "bob")])) :=
  ⟨by decide,
    add_all_tags_correct ⟨[], [], [], [], 0, 0, 0⟩
      [(some ("artist"), "bob"), (some ("artist"), "bob")] (by decide)⟩

end Mediarepo
